import Mathlib

/-!
Shallow embedding of the per-frame physics step (`updatePhysics`) of the
HT-Race repository, in its two variants:

* the open-field variant (`src/main.js`, first file, identical in logic to
  `src/unnamed/part_000`): constants MASS = 10, ACCELERATION = 20,
  MAX_SPEED = 15, DRAG = 0.985, ANGULAR_DRAG = 0.95, TURN_RATE = 0.05; a
  square boundary of half-extent 48 that only decays velocity; camera follow
  written before the boundary check;
* the circuit variant (`src/main.js`, second file): constants MASS = 10,
  ACCELERATION = 40, MAX_SPEED = 35, DRAG = 0.98, ANGULAR_DRAG = 0.95,
  TURN_RATE = 0.05; an annular track of radii 60 and 70 with radial snapping;
  camera follow written after the boundary check.

Vector operations mirror the THREE.js ones the code uses:
`length` is the Euclidean norm, `normalize()` divides by `length() || 1`
(so the zero vector normalizes to the zero vector), and
`setLength(l)` is `normalize().multiplyScalar(l)`.
-/

namespace HTRace

/-- A 3-component vector (THREE.Vector3 with real components). -/
structure Vec3 where
  x : ℝ
  y : ℝ
  z : ℝ

/-- A 2-component vector (THREE.Vector2 with real components). -/
structure Vec2 where
  x : ℝ
  y : ℝ

namespace Vec3

/-- Componentwise addition (Vector3.add). -/
def add (a b : Vec3) : Vec3 := ⟨a.x + b.x, a.y + b.y, a.z + b.z⟩

/-- Scalar multiplication (Vector3.multiplyScalar). -/
def smul (c : ℝ) (v : Vec3) : Vec3 := ⟨c * v.x, c * v.y, c * v.z⟩

/-- Euclidean length (Vector3.length). -/
noncomputable def length (v : Vec3) : ℝ := Real.sqrt (v.x ^ 2 + v.y ^ 2 + v.z ^ 2)

/-- Vector3.normalize: divide by `length() || 1`, so the zero vector maps
to the zero vector instead of failing. -/
noncomputable def normalize (v : Vec3) : Vec3 :=
  smul (1 / (if v.length = 0 then 1 else v.length)) v

/-- Vector3.setLength: `normalize().multiplyScalar(l)`. -/
noncomputable def setLength (v : Vec3) (l : ℝ) : Vec3 := smul l v.normalize

end Vec3

namespace Vec2

/-- Euclidean length (Vector2.length). -/
noncomputable def length (p : Vec2) : ℝ := Real.sqrt (p.x ^ 2 + p.y ^ 2)

/-- Vector2.normalize: divide by `length() || 1`. -/
noncomputable def normalize (p : Vec2) : Vec2 :=
  let d := 1 / (if p.length = 0 then 1 else p.length)
  ⟨d * p.x, d * p.y⟩

end Vec2

/-- Rotation of a vector about the vertical (Y) axis by angle `θ`
(Vector3.applyAxisAngle with axis (0,1,0)). -/
noncomputable def applyAxisAngleY (θ : ℝ) (v : Vec3) : Vec3 :=
  ⟨v.x * Real.cos θ + v.z * Real.sin θ, v.y, -v.x * Real.sin θ + v.z * Real.cos θ⟩

/-- The four latched controls (the `keys` record). -/
structure Keys where
  forward : Bool
  backward : Bool
  left : Bool
  right : Bool
  deriving Repr, DecidableEq

/-- The controlled body's mutable state: `player.position`,
`player.rotation.y` (the heading), `velocity`, `angularVelocity`. -/
structure BodyState where
  position : Vec3
  rotationY : ℝ
  velocity : Vec3
  angularVelocity : ℝ

/-- The physics constants of one variant. -/
structure Consts where
  mass : ℝ
  accel : ℝ
  maxSpeed : ℝ
  drag : ℝ
  angularDrag : ℝ
  turnRate : ℝ

/-- Constants of the open-field variant. -/
noncomputable def openConsts : Consts :=
  { mass := 10, accel := 20, maxSpeed := 15, drag := 0.985,
    angularDrag := 0.95, turnRate := 0.05 }

/-- Constants of the circuit variant. -/
noncomputable def circuitConsts : Consts :=
  { mass := 10, accel := 40, maxSpeed := 35, drag := 0.98,
    angularDrag := 0.95, turnRate := 0.05 }

/-- Inner radius of the circuit track (TRACK_RADIUS). -/
noncomputable def TRACK_RADIUS : ℝ := 60

/-- Lane width of the circuit track (TRACK_WIDTH). -/
noncomputable def TRACK_WIDTH : ℝ := 10

/-- Section 1 of `updatePhysics` before the drag multiplication: add
`TURN_RATE * dt` while left is held, subtract it while right is held. -/
noncomputable def steerAV (c : Consts) (k : Keys) (dt av : ℝ) : ℝ :=
  let av1 := if k.left then av + c.turnRate * dt else av
  if k.right then av1 - c.turnRate * dt else av1

/-- Angular velocity after one step: steering contributions, then the
ANGULAR_DRAG multiplication. -/
noncomputable def newAngularVelocity (c : Consts) (k : Keys) (dt : ℝ) (s : BodyState) : ℝ :=
  steerAV c k dt s.angularVelocity * c.angularDrag

/-- Heading after one step: `player.rotation.y += angularVelocity`
(the post-drag angular velocity, not scaled by dt). -/
noncomputable def newRotationY (c : Consts) (k : Keys) (dt : ℝ) (s : BodyState) : ℝ :=
  s.rotationY + newAngularVelocity c k dt s

/-- The body's forward vector: the canonical forward (0,0,-1) rotated about
the vertical axis by the current heading. -/
noncomputable def forwardVector (rotY : ℝ) : Vec3 := applyAxisAngleY rotY ⟨0, 0, -1⟩

/-- Section 2 of `updatePhysics`: the accumulated drive force. Forward adds
`ACCELERATION` along the forward vector, backward adds
`-ACCELERATION * 0.5` along it; both add when both keys are held. -/
noncomputable def driveForce (c : Consts) (k : Keys) (fwd : Vec3) : Vec3 :=
  let f1 := if k.forward then Vec3.add ⟨0, 0, 0⟩ (Vec3.smul c.accel fwd) else ⟨0, 0, 0⟩
  if k.backward then Vec3.add f1 (Vec3.smul (-c.accel * 0.5) fwd) else f1

/-- Section 3 of `updatePhysics` before the speed clamp: acceleration is
force / MASS, velocity gains `acceleration * dt`, then the whole velocity is
multiplied by DRAG. -/
noncomputable def dragVelocity (c : Consts) (k : Keys) (dt rotY : ℝ) (v : Vec3) : Vec3 :=
  let accelerationVector := Vec3.smul (1 / c.mass) (driveForce c k (forwardVector rotY))
  Vec3.smul c.drag (v.add (Vec3.smul dt accelerationVector))

/-- The speed clamp: if `velocity.length() > MAX_SPEED`, rescale with
`setLength(MAX_SPEED)`. -/
noncomputable def clampVelocity (c : Consts) (v : Vec3) : Vec3 :=
  if v.length > c.maxSpeed then v.setLength c.maxSpeed else v

/-- Velocity after one step (sections 2-3 of `updatePhysics`). -/
noncomputable def newVelocity (c : Consts) (k : Keys) (dt : ℝ) (s : BodyState) : Vec3 :=
  clampVelocity c (dragVelocity c k dt (newRotationY c k dt s) s.velocity)

/-- Sections 1-4 of `updatePhysics`, common to both variants: steering,
heading update, drive force, velocity integration with drag and clamp, and
the position update `position += velocity * dt`. The boundary policy and
the camera follow are applied on top of this. -/
noncomputable def integStep (c : Consts) (k : Keys) (dt : ℝ) (s : BodyState) : BodyState :=
  { position := s.position.add (Vec3.smul dt (newVelocity c k dt s)),
    rotationY := newRotationY c k dt s,
    velocity := newVelocity c k dt s,
    angularVelocity := newAngularVelocity c k dt s }

/-- The open-field boundary check: if either |x| or |z| exceeds 48, multiply
velocity by 0.01; the position is never modified. -/
noncomputable def openBoundary (s : BodyState) : BodyState :=
  if |s.position.x| > 48 ∨ |s.position.z| > 48 then
    { s with velocity := Vec3.smul 0.01 s.velocity }
  else s

/-- The circuit boundary check. `position2D` is the horizontal projection of
the position; `normalize()` mutates in place, so the code's two reads
`position2D.normalize().x` and `position2D.normalize().y` normalize once for
the x assignment and a second time (idempotently) for the z assignment.
Both wall tests compare the distance computed before any correction. -/
noncomputable def circuitBoundary (s : BodyState) : BodyState :=
  let position2D : Vec2 := ⟨s.position.x, s.position.z⟩
  let distanceToCenter := position2D.length
  let p1 := if distanceToCenter < TRACK_RADIUS then position2D.normalize.normalize else position2D
  let s1 :=
    if distanceToCenter < TRACK_RADIUS then
      { s with velocity := Vec3.smul 0.01 s.velocity,
               position := ⟨position2D.normalize.x * (TRACK_RADIUS + 0.1), s.position.y,
                            position2D.normalize.normalize.y * (TRACK_RADIUS + 0.1)⟩ }
    else s
  let maxRadius := TRACK_RADIUS + TRACK_WIDTH
  if distanceToCenter > maxRadius then
    { s1 with velocity := Vec3.smul 0.01 s1.velocity,
              position := ⟨p1.normalize.x * (maxRadius - 0.1), s1.position.y,
                           p1.normalize.normalize.y * (maxRadius - 0.1)⟩ }
  else s1

/-- The camera follow: the fixed offset (0, 5, 10) rotated about the vertical
axis by the body's heading, added to the body position. -/
noncomputable def cameraFollow (s : BodyState) : Vec3 :=
  s.position.add (applyAxisAngleY s.rotationY ⟨0, 5, 10⟩)

/-- One full `updatePhysics` step of the open-field variant, returning the
new body state and the camera position. In this variant the code computes
the camera before the boundary check. -/
noncomputable def updatePhysicsOpen (k : Keys) (dt : ℝ) (s : BodyState) : BodyState × Vec3 :=
  let s1 := integStep openConsts k dt s
  let cam := cameraFollow s1
  (openBoundary s1, cam)

/-- One full `updatePhysics` step of the circuit variant, returning the new
body state and the camera position. In this variant the code computes the
camera after the boundary check. -/
noncomputable def updatePhysicsCircuit (k : Keys) (dt : ℝ) (s : BodyState) : BodyState × Vec3 :=
  let s2 := circuitBoundary (integStep circuitConsts k dt s)
  (s2, cameraFollow s2)

end HTRace

namespace HTRace

/-! ### Basic vector lemmas -/

lemma Vec3.length_nonneg (v : Vec3) : 0 ≤ v.length := Real.sqrt_nonneg _

lemma Vec3.smul_smul (a b : ℝ) (v : Vec3) :
    Vec3.smul a (Vec3.smul b v) = Vec3.smul (a * b) v := by
  simp only [Vec3.smul, Vec3.mk.injEq]
  refine ⟨by ring, by ring, by ring⟩

lemma Vec3.length_smul (c : ℝ) (v : Vec3) :
    (Vec3.smul c v).length = |c| * v.length := by
  simp only [Vec3.smul, Vec3.length]
  rw [show (c * v.x) ^ 2 + (c * v.y) ^ 2 + (c * v.z) ^ 2
        = c ^ 2 * (v.x ^ 2 + v.y ^ 2 + v.z ^ 2) by ring,
      Real.sqrt_mul (sq_nonneg c), Real.sqrt_sq_eq_abs]

lemma Vec3.normalize_of_length_ne_zero (v : Vec3) (h : v.length ≠ 0) :
    v.normalize = Vec3.smul (1 / v.length) v := by
  simp only [Vec3.normalize, if_neg h]

lemma Vec3.length_normalize (v : Vec3) (h : v.length ≠ 0) :
    v.normalize.length = 1 := by
  rw [Vec3.normalize_of_length_ne_zero v h, Vec3.length_smul,
      abs_of_nonneg (one_div_nonneg.mpr (Vec3.length_nonneg v))]
  field_simp

lemma Vec3.length_setLength (v : Vec3) (l : ℝ) (h : v.length ≠ 0) (hl : 0 ≤ l) :
    (v.setLength l).length = l := by
  rw [Vec3.setLength, Vec3.length_smul, Vec3.length_normalize v h,
      abs_of_nonneg hl, mul_one]

lemma Vec3.length_smul_decay_le (v : Vec3) :
    (Vec3.smul 0.01 v).length ≤ v.length := by
  rw [Vec3.length_smul]
  have h := Vec3.length_nonneg v
  rw [show |(0.01:ℝ)| = 0.01 by norm_num]
  nlinarith

/-! ### Lemmas about the speed clamp and the boundary policies -/

lemma clampVelocity_length_le (c : Consts) (h : 0 ≤ c.maxSpeed) (v : Vec3) :
    (clampVelocity c v).length ≤ c.maxSpeed := by
  unfold clampVelocity
  split
  · rename_i hgt
    have hne : v.length ≠ 0 := by
      intro h0
      rw [h0] at hgt
      linarith
    rw [Vec3.length_setLength v _ hne h]
  · rename_i hle
    exact le_of_not_lt hle

lemma newVelocity_length_le (c : Consts) (h : 0 ≤ c.maxSpeed) (k : Keys) (dt : ℝ)
    (s : BodyState) : (newVelocity c k dt s).length ≤ c.maxSpeed :=
  clampVelocity_length_le c h _

lemma openBoundary_position (s : BodyState) : (openBoundary s).position = s.position := by
  unfold openBoundary
  split <;> rfl

lemma openBoundary_rotationY (s : BodyState) : (openBoundary s).rotationY = s.rotationY := by
  unfold openBoundary
  split <;> rfl

lemma openBoundary_angularVelocity (s : BodyState) :
    (openBoundary s).angularVelocity = s.angularVelocity := by
  unfold openBoundary
  split <;> rfl

lemma openBoundary_velocity_length_le (s : BodyState) :
    (openBoundary s).velocity.length ≤ s.velocity.length := by
  unfold openBoundary
  split
  · exact Vec3.length_smul_decay_le _
  · exact le_refl _

lemma circuitBoundary_rotationY (s : BodyState) :
    (circuitBoundary s).rotationY = s.rotationY := by
  simp only [circuitBoundary]
  split <;> split <;> rfl

lemma circuitBoundary_angularVelocity (s : BodyState) :
    (circuitBoundary s).angularVelocity = s.angularVelocity := by
  simp only [circuitBoundary]
  split <;> split <;> rfl

lemma circuitBoundary_position_y (s : BodyState) :
    (circuitBoundary s).position.y = s.position.y := by
  simp only [circuitBoundary]
  split <;> split <;> rfl

lemma circuitBoundary_velocity_length_le (s : BodyState) :
    (circuitBoundary s).velocity.length ≤ s.velocity.length := by
  simp only [circuitBoundary]
  split
  · split
    · exact le_trans (Vec3.length_smul_decay_le _) (Vec3.length_smul_decay_le _)
    · exact Vec3.length_smul_decay_le _
  · split
    · exact Vec3.length_smul_decay_le _
    · exact le_refl _

end HTRace

namespace HTRace

/-! ### Claim theorems -/

/-- C1: In either variant, for every starting state, input combination and
non-negative dt, the velocity produced by one `updatePhysics` step has
magnitude at most the variant's MAX_SPEED; and whenever a pre-clamp velocity
exceeds MAX_SPEED, the clamp rescales it to exactly MAX_SPEED as a positive
scalar multiple of itself (direction preserved). -/
theorem speed_clamp_invariant (k : Keys) (dt : ℝ) (s : BodyState) (hdt : 0 ≤ dt) :
    ((updatePhysicsOpen k dt s).1.velocity.length ≤ openConsts.maxSpeed ∧
      (updatePhysicsCircuit k dt s).1.velocity.length ≤ circuitConsts.maxSpeed) ∧
    ∀ c : Consts, 0 < c.maxSpeed → ∀ w : Vec3, c.maxSpeed < w.length →
      (clampVelocity c w).length = c.maxSpeed ∧
      ∃ t : ℝ, 0 < t ∧ clampVelocity c w = Vec3.smul t w := by
  constructor
  · constructor
    · have h1 : (updatePhysicsOpen k dt s).1 = openBoundary (integStep openConsts k dt s) := rfl
      rw [h1]
      refine le_trans (openBoundary_velocity_length_le _) ?_
      exact newVelocity_length_le _ (by norm_num [openConsts]) _ _ _
    · have h1 : (updatePhysicsCircuit k dt s).1
          = circuitBoundary (integStep circuitConsts k dt s) := rfl
      rw [h1]
      refine le_trans (circuitBoundary_velocity_length_le _) ?_
      exact newVelocity_length_le _ (by norm_num [circuitConsts]) _ _ _
  · intro c hc w hw
    have hne : w.length ≠ 0 := by
      intro h0
      rw [h0] at hw
      linarith
    have hcl : clampVelocity c w = w.setLength c.maxSpeed := by
      unfold clampVelocity
      rw [if_pos hw]
    refine ⟨?_, c.maxSpeed / w.length, ?_, ?_⟩
    · rw [hcl]
      exact Vec3.length_setLength w _ hne (le_of_lt hc)
    · have hwpos : 0 < w.length := lt_trans hc hw
      exact div_pos hc hwpos
    · rw [hcl, Vec3.setLength, Vec3.normalize_of_length_ne_zero w hne, Vec3.smul_smul,
          mul_one_div]

/-- C1 witness: the invariant at the all-keys-released input, dt = 1, rest
state at the origin. -/
theorem speed_clamp_invariant_witness :
    ((updatePhysicsOpen ⟨false, false, false, false⟩ 1
        ⟨⟨0, 0, 0⟩, 0, ⟨0, 0, 0⟩, 0⟩).1.velocity.length ≤ openConsts.maxSpeed ∧
      (updatePhysicsCircuit ⟨false, false, false, false⟩ 1
        ⟨⟨0, 0, 0⟩, 0, ⟨0, 0, 0⟩, 0⟩).1.velocity.length ≤ circuitConsts.maxSpeed) ∧
    ∀ c : Consts, 0 < c.maxSpeed → ∀ w : Vec3, c.maxSpeed < w.length →
      (clampVelocity c w).length = c.maxSpeed ∧
      ∃ t : ℝ, 0 < t ∧ clampVelocity c w = Vec3.smul t w :=
  speed_clamp_invariant ⟨false, false, false, false⟩ 1 ⟨⟨0, 0, 0⟩, 0, ⟨0, 0, 0⟩, 0⟩
    (by norm_num)

/-- C7: When steer-left and steer-right are both held, the steering
contributions TURN_RATE*dt and -TURN_RATE*dt sum to a net change of exactly
zero before the angular-drag multiplication, so the step's angular velocity
is exactly the old one times ANGULAR_DRAG, for every state and dt. -/
theorem both_steer_cancel (c : Consts) (k : Keys) (dt : ℝ) (s : BodyState)
    (hl : k.left = true) (hr : k.right = true) :
    steerAV c k dt s.angularVelocity = s.angularVelocity ∧
    (integStep c k dt s).angularVelocity = s.angularVelocity * c.angularDrag := by
  have h : steerAV c k dt s.angularVelocity = s.angularVelocity := by
    simp only [steerAV, hl, hr, if_true]
    ring
  exact ⟨h, by simp only [integStep, newAngularVelocity, h]⟩

/-- C7 witness: both steering keys held, dt = 1, angular velocity 2. -/
theorem both_steer_cancel_witness :
    steerAV openConsts ⟨false, false, true, true⟩ 1
      (BodyState.mk ⟨0, 0, 0⟩ 0 ⟨0, 0, 0⟩ 2).angularVelocity
        = (BodyState.mk ⟨0, 0, 0⟩ 0 ⟨0, 0, 0⟩ 2).angularVelocity ∧
    (integStep openConsts ⟨false, false, true, true⟩ 1
      (BodyState.mk ⟨0, 0, 0⟩ 0 ⟨0, 0, 0⟩ 2)).angularVelocity
        = (BodyState.mk ⟨0, 0, 0⟩ 0 ⟨0, 0, 0⟩ 2).angularVelocity * openConsts.angularDrag :=
  both_steer_cancel openConsts ⟨false, false, true, true⟩ 1
    (BodyState.mk ⟨0, 0, 0⟩ 0 ⟨0, 0, 0⟩ 2) rfl rfl

/-- C8: In every step of both variants, the new heading is the old heading
plus the post-drag angular velocity of that step, directly, not multiplied
by dt, for every dt and input. -/
theorem heading_adds_angular_velocity (k : Keys) (dt : ℝ) (s : BodyState) :
    (∀ c : Consts, (integStep c k dt s).rotationY
        = s.rotationY + (integStep c k dt s).angularVelocity) ∧
    (updatePhysicsOpen k dt s).1.rotationY
        = s.rotationY + (updatePhysicsOpen k dt s).1.angularVelocity ∧
    (updatePhysicsCircuit k dt s).1.rotationY
        = s.rotationY + (updatePhysicsCircuit k dt s).1.angularVelocity := by
  refine ⟨fun c => rfl, ?_, ?_⟩
  · have h1 : (updatePhysicsOpen k dt s).1 = openBoundary (integStep openConsts k dt s) := rfl
    rw [h1, openBoundary_rotationY, openBoundary_angularVelocity]
    rfl
  · have h1 : (updatePhysicsCircuit k dt s).1
        = circuitBoundary (integStep circuitConsts k dt s) := rfl
    rw [h1, circuitBoundary_rotationY, circuitBoundary_angularVelocity]
    rfl

/-- With all controls released and the body at rest (zero velocity, zero
angular velocity), one integration step leaves the state unchanged. -/
lemma integStep_rest (c : Consts) (hmax : 0 ≤ c.maxSpeed) (dt : ℝ) (p : Vec3) (θ : ℝ) :
    integStep c ⟨false, false, false, false⟩ dt ⟨p, θ, ⟨0, 0, 0⟩, 0⟩
      = ⟨p, θ, ⟨0, 0, 0⟩, 0⟩ := by
  have hz : newVelocity c ⟨false, false, false, false⟩ dt ⟨p, θ, ⟨0, 0, 0⟩, 0⟩ = ⟨0, 0, 0⟩ := by
    have hd : dragVelocity c ⟨false, false, false, false⟩ dt
        (newRotationY c ⟨false, false, false, false⟩ dt ⟨p, θ, ⟨0, 0, 0⟩, 0⟩) (⟨0, 0, 0⟩ : Vec3)
          = ⟨0, 0, 0⟩ := by
      simp [dragVelocity, driveForce, Vec3.add, Vec3.smul]
    show clampVelocity c (dragVelocity c ⟨false, false, false, false⟩ dt _ _) = _
    rw [hd, clampVelocity]
    rw [if_neg ?_]
    have h0 : (⟨0, 0, 0⟩ : Vec3).length = 0 := by
      simp [Vec3.length]
    rw [h0]
    exact not_lt.mpr hmax
  show (⟨Vec3.add p (Vec3.smul dt (newVelocity c ⟨false, false, false, false⟩ dt
      ⟨p, θ, ⟨0, 0, 0⟩, 0⟩)), newRotationY c ⟨false, false, false, false⟩ dt ⟨p, θ, ⟨0, 0, 0⟩, 0⟩,
      newVelocity c ⟨false, false, false, false⟩ dt ⟨p, θ, ⟨0, 0, 0⟩, 0⟩,
      newAngularVelocity c ⟨false, false, false, false⟩ dt ⟨p, θ, ⟨0, 0, 0⟩, 0⟩⟩ : BodyState)
    = ⟨p, θ, ⟨0, 0, 0⟩, 0⟩
  have hav : newAngularVelocity c ⟨false, false, false, false⟩ dt ⟨p, θ, ⟨0, 0, 0⟩, 0⟩ = 0 := by
    simp [newAngularVelocity, steerAV]
  rw [hz, hav]
  simp [newRotationY, hav, Vec3.add, Vec3.smul]

/-- C2: In the open-field variant, whenever the post-translation position
has |x| > 48 or |z| > 48, the step multiplies the velocity by 0.01 (so its
magnitude becomes at most 1% of what it was before the boundary check), and
the boundary check leaves the position unchanged. -/
theorem open_boundary_decay (k : Keys) (dt : ℝ) (s : BodyState)
    (hout : |(integStep openConsts k dt s).position.x| > 48 ∨
            |(integStep openConsts k dt s).position.z| > 48) :
    (updatePhysicsOpen k dt s).1.velocity
        = Vec3.smul 0.01 (integStep openConsts k dt s).velocity ∧
    (updatePhysicsOpen k dt s).1.velocity.length
        ≤ 0.01 * (integStep openConsts k dt s).velocity.length ∧
    (updatePhysicsOpen k dt s).1.position = (integStep openConsts k dt s).position := by
  have h1 : (updatePhysicsOpen k dt s).1 = openBoundary (integStep openConsts k dt s) := rfl
  have h2 : openBoundary (integStep openConsts k dt s)
      = { integStep openConsts k dt s with
          velocity := Vec3.smul 0.01 (integStep openConsts k dt s).velocity } := by
    unfold openBoundary
    rw [if_pos hout]
  have hv : (updatePhysicsOpen k dt s).1.velocity
      = Vec3.smul 0.01 (integStep openConsts k dt s).velocity := by
    rw [h1, h2]
  refine ⟨hv, ?_, ?_⟩
  · rw [hv, Vec3.length_smul, show |(0.01:ℝ)| = 0.01 by norm_num]
  · rw [h1, h2]

/-- C2 witness: body parked at x = 100 with zero velocity, no keys, dt = 0. -/
theorem open_boundary_decay_witness :
    (updatePhysicsOpen ⟨false, false, false, false⟩ 0
        ⟨⟨100, 0.5, 0⟩, 0, ⟨0, 0, 0⟩, 0⟩).1.velocity
      = Vec3.smul 0.01 (integStep openConsts ⟨false, false, false, false⟩ 0
        ⟨⟨100, 0.5, 0⟩, 0, ⟨0, 0, 0⟩, 0⟩).velocity ∧
    (updatePhysicsOpen ⟨false, false, false, false⟩ 0
        ⟨⟨100, 0.5, 0⟩, 0, ⟨0, 0, 0⟩, 0⟩).1.velocity.length
      ≤ 0.01 * (integStep openConsts ⟨false, false, false, false⟩ 0
        ⟨⟨100, 0.5, 0⟩, 0, ⟨0, 0, 0⟩, 0⟩).velocity.length ∧
    (updatePhysicsOpen ⟨false, false, false, false⟩ 0
        ⟨⟨100, 0.5, 0⟩, 0, ⟨0, 0, 0⟩, 0⟩).1.position
      = (integStep openConsts ⟨false, false, false, false⟩ 0
        ⟨⟨100, 0.5, 0⟩, 0, ⟨0, 0, 0⟩, 0⟩).position :=
  open_boundary_decay ⟨false, false, false, false⟩ 0 ⟨⟨100, 0.5, 0⟩, 0, ⟨0, 0, 0⟩, 0⟩
    (by rw [integStep_rest openConsts (by norm_num [openConsts]) 0 ⟨100, 0.5, 0⟩ 0]
        norm_num)

lemma driveForce_y (c : Consts) (k : Keys) (fwd : Vec3) (h : fwd.y = 0) :
    (driveForce c k fwd).y = 0 := by
  simp only [driveForce]
  split <;> split <;> simp [Vec3.add, Vec3.smul, h]

lemma dragVelocity_y (c : Consts) (k : Keys) (dt rotY : ℝ) (v : Vec3) (h : v.y = 0) :
    (dragVelocity c k dt rotY v).y = 0 := by
  have hf : (forwardVector rotY).y = 0 := rfl
  simp only [dragVelocity, Vec3.add, Vec3.smul]
  rw [driveForce_y c k _ hf]
  simp [h]

lemma clampVelocity_y (c : Consts) (v : Vec3) (h : v.y = 0) :
    (clampVelocity c v).y = 0 := by
  unfold clampVelocity
  split
  · simp [Vec3.setLength, Vec3.normalize, Vec3.smul, h]
  · exact h

lemma newVelocity_y (c : Consts) (k : Keys) (dt : ℝ) (s : BodyState)
    (h : s.velocity.y = 0) : (newVelocity c k dt s).y = 0 :=
  clampVelocity_y _ _ (dragVelocity_y _ _ _ _ _ h)

lemma openBoundary_velocity_y (s : BodyState) (h : s.velocity.y = 0) :
    (openBoundary s).velocity.y = 0 := by
  unfold openBoundary
  split <;> simp [Vec3.smul, h]

lemma circuitBoundary_velocity_y (s : BodyState) (h : s.velocity.y = 0) :
    (circuitBoundary s).velocity.y = 0 := by
  simp only [circuitBoundary]
  split <;> split <;> simp [Vec3.smul, h]

/-- C5: In both variants, the camera output of every step equals the camera
follow applied to the final, boundary-corrected body state of that step,
unconditionally. (In the open-field variant the code computes the camera
before the boundary check, but that check never modifies position or
heading, so the equality still holds.) -/
theorem camera_follows_corrected_state (k : Keys) (dt : ℝ) (s : BodyState) :
    (updatePhysicsOpen k dt s).2 = cameraFollow (updatePhysicsOpen k dt s).1 ∧
    (updatePhysicsCircuit k dt s).2 = cameraFollow (updatePhysicsCircuit k dt s).1 := by
  constructor
  · have h1 : (updatePhysicsOpen k dt s).2 = cameraFollow (integStep openConsts k dt s) := rfl
    have h2 : (updatePhysicsOpen k dt s).1 = openBoundary (integStep openConsts k dt s) := rfl
    rw [h1, h2]
    unfold cameraFollow
    rw [openBoundary_position, openBoundary_rotationY]
  · rfl

/-- C6: At the end of every frame, in both variants, the camera position is
the body position plus the offset (0, 5, 10) rotated about the vertical axis
by the body's heading; and rotating the offset is unaffected by adding any
integer multiple of 2π to the heading. -/
theorem camera_offset_formula (k : Keys) (dt : ℝ) (s : BodyState) (θ : ℝ) (n : ℤ) :
    (updatePhysicsOpen k dt s).2
        = (updatePhysicsOpen k dt s).1.position.add
            (applyAxisAngleY (updatePhysicsOpen k dt s).1.rotationY ⟨0, 5, 10⟩) ∧
    (updatePhysicsCircuit k dt s).2
        = (updatePhysicsCircuit k dt s).1.position.add
            (applyAxisAngleY (updatePhysicsCircuit k dt s).1.rotationY ⟨0, 5, 10⟩) ∧
    applyAxisAngleY (θ + n * (2 * Real.pi)) ⟨0, 5, 10⟩ = applyAxisAngleY θ ⟨0, 5, 10⟩ := by
  refine ⟨?_, rfl, ?_⟩
  · have h1 : (updatePhysicsOpen k dt s).2 = cameraFollow (integStep openConsts k dt s) := rfl
    have h2 : (updatePhysicsOpen k dt s).1 = openBoundary (integStep openConsts k dt s) := rfl
    rw [h1, h2, openBoundary_position, openBoundary_rotationY]
    rfl
  · simp [applyAxisAngleY, Real.cos_add_int_mul_two_pi, Real.sin_add_int_mul_two_pi]

/-- C10: In both variants, when the velocity's vertical component is zero,
one step keeps it zero and leaves the body's vertical position unchanged;
the forward vector obtained by rotating (0,0,-1) about the vertical axis
always has zero vertical component. -/
theorem vertical_component_invariant (k : Keys) (dt : ℝ) (s : BodyState)
    (hy : s.velocity.y = 0) :
    (∀ θ : ℝ, (forwardVector θ).y = 0) ∧
    (updatePhysicsOpen k dt s).1.velocity.y = 0 ∧
    (updatePhysicsOpen k dt s).1.position.y = s.position.y ∧
    (updatePhysicsCircuit k dt s).1.velocity.y = 0 ∧
    (updatePhysicsCircuit k dt s).1.position.y = s.position.y := by
  have hnvO : (newVelocity openConsts k dt s).y = 0 := newVelocity_y _ _ _ _ hy
  have hnvC : (newVelocity circuitConsts k dt s).y = 0 := newVelocity_y _ _ _ _ hy
  refine ⟨fun θ => rfl, ?_, ?_, ?_, ?_⟩
  · exact openBoundary_velocity_y _ hnvO
  · have h1 : (updatePhysicsOpen k dt s).1 = openBoundary (integStep openConsts k dt s) := rfl
    rw [h1, openBoundary_position]
    show s.position.y + dt * (newVelocity openConsts k dt s).y = s.position.y
    rw [hnvO]
    ring
  · exact circuitBoundary_velocity_y _ hnvC
  · have h1 : (updatePhysicsCircuit k dt s).1
        = circuitBoundary (integStep circuitConsts k dt s) := rfl
    rw [h1, circuitBoundary_position_y]
    show s.position.y + dt * (newVelocity circuitConsts k dt s).y = s.position.y
    rw [hnvC]
    ring

/-- C10 witness: the invariant at the rest state with vertical velocity 0. -/
theorem vertical_component_invariant_witness :
    (∀ θ : ℝ, (forwardVector θ).y = 0) ∧
    (updatePhysicsOpen ⟨true, false, false, false⟩ 1
        ⟨⟨0, 0.5, 0⟩, 0, ⟨0, 0, 0⟩, 0⟩).1.velocity.y = 0 ∧
    (updatePhysicsOpen ⟨true, false, false, false⟩ 1
        ⟨⟨0, 0.5, 0⟩, 0, ⟨0, 0, 0⟩, 0⟩).1.position.y
      = (BodyState.mk ⟨0, 0.5, 0⟩ 0 ⟨0, 0, 0⟩ 0).position.y ∧
    (updatePhysicsCircuit ⟨true, false, false, false⟩ 1
        ⟨⟨0, 0.5, 0⟩, 0, ⟨0, 0, 0⟩, 0⟩).1.velocity.y = 0 ∧
    (updatePhysicsCircuit ⟨true, false, false, false⟩ 1
        ⟨⟨0, 0.5, 0⟩, 0, ⟨0, 0, 0⟩, 0⟩).1.position.y
      = (BodyState.mk ⟨0, 0.5, 0⟩ 0 ⟨0, 0, 0⟩ 0).position.y :=
  vertical_component_invariant ⟨true, false, false, false⟩ 1
    ⟨⟨0, 0.5, 0⟩, 0, ⟨0, 0, 0⟩, 0⟩ rfl

/-- At the exact track center the horizontal projection is the zero vector;
THREE's normalize divides by `length() || 1`, so it returns the zero vector
and the snap writes the origin instead of a point at radius
TRACK_RADIUS + 0.1, while the velocity is still decayed. -/
lemma circuitBoundary_at_center (s : BodyState) (hx : s.position.x = 0)
    (hz : s.position.z = 0) :
    circuitBoundary s
      = { s with position := ⟨0, s.position.y, 0⟩,
                 velocity := Vec3.smul 0.01 s.velocity } := by
  simp only [circuitBoundary]
  rw [show (⟨s.position.x, s.position.z⟩ : Vec2) = ⟨0, 0⟩ by rw [hx, hz]]
  norm_num [Vec2.length, Vec2.normalize, TRACK_RADIUS, TRACK_WIDTH]

/-- C9: In the circuit variant, when the post-translation position is exactly
the track center, the step does not fail: the zero-length radial vector
normalizes to the zero vector, the snap assigns the origin (radius 0) rather
than a point at radius TRACK_RADIUS + 0.1, and the velocity is still
multiplied by 0.01. -/
theorem circuit_center_degenerate (k : Keys) (dt : ℝ) (s : BodyState)
    (hx : (integStep circuitConsts k dt s).position.x = 0)
    (hz : (integStep circuitConsts k dt s).position.z = 0) :
    (updatePhysicsCircuit k dt s).1.position.x = 0 ∧
    (updatePhysicsCircuit k dt s).1.position.z = 0 ∧
    (updatePhysicsCircuit k dt s).1.position.y
        = (integStep circuitConsts k dt s).position.y ∧
    (updatePhysicsCircuit k dt s).1.velocity
        = Vec3.smul 0.01 (integStep circuitConsts k dt s).velocity := by
  have h1 : (updatePhysicsCircuit k dt s).1
      = circuitBoundary (integStep circuitConsts k dt s) := rfl
  rw [h1, circuitBoundary_at_center _ hx hz]
  exact ⟨rfl, rfl, rfl, rfl⟩

/-- C9 witness: body at the exact track center, at rest, no keys, dt = 0. -/
theorem circuit_center_degenerate_witness :
    (updatePhysicsCircuit ⟨false, false, false, false⟩ 0
        ⟨⟨0, 0.5, 0⟩, 0, ⟨0, 0, 0⟩, 0⟩).1.position.x = 0 ∧
    (updatePhysicsCircuit ⟨false, false, false, false⟩ 0
        ⟨⟨0, 0.5, 0⟩, 0, ⟨0, 0, 0⟩, 0⟩).1.position.z = 0 ∧
    (updatePhysicsCircuit ⟨false, false, false, false⟩ 0
        ⟨⟨0, 0.5, 0⟩, 0, ⟨0, 0, 0⟩, 0⟩).1.position.y
      = (integStep circuitConsts ⟨false, false, false, false⟩ 0
        ⟨⟨0, 0.5, 0⟩, 0, ⟨0, 0, 0⟩, 0⟩).position.y ∧
    (updatePhysicsCircuit ⟨false, false, false, false⟩ 0
        ⟨⟨0, 0.5, 0⟩, 0, ⟨0, 0, 0⟩, 0⟩).1.velocity
      = Vec3.smul 0.01 (integStep circuitConsts ⟨false, false, false, false⟩ 0
        ⟨⟨0, 0.5, 0⟩, 0, ⟨0, 0, 0⟩, 0⟩).velocity :=
  circuit_center_degenerate ⟨false, false, false, false⟩ 0 ⟨⟨0, 0.5, 0⟩, 0, ⟨0, 0, 0⟩, 0⟩
    (by rw [integStep_rest circuitConsts (by norm_num [circuitConsts]) 0 ⟨0, 0.5, 0⟩ 0])
    (by rw [integStep_rest circuitConsts (by norm_num [circuitConsts]) 0 ⟨0, 0.5, 0⟩ 0])

lemma Vec2.normalize_of_ne (p : Vec2) (h : p.length ≠ 0) :
    p.normalize = ⟨p.x / p.length, p.y / p.length⟩ := by
  simp only [Vec2.normalize, if_neg h, Vec2.mk.injEq]
  constructor <;> ring

lemma Vec2.normalize_length_one (p : Vec2) (h : p.length ≠ 0) :
    p.normalize.length = 1 := by
  have hsum : p.x ^ 2 + p.y ^ 2 ≠ 0 := by
    intro h0
    apply h
    simp [Vec2.length, h0]
  have hl2 : p.length ^ 2 = p.x ^ 2 + p.y ^ 2 := Real.sq_sqrt (by positivity)
  rw [Vec2.normalize_of_ne p h]
  show Real.sqrt ((p.x / p.length) ^ 2 + (p.y / p.length) ^ 2) = 1
  rw [div_pow, div_pow, hl2, div_add_div_same, div_self hsum, Real.sqrt_one]

lemma Vec2.normalize_idem_of_ne (p : Vec2) (h : p.length ≠ 0) :
    p.normalize.normalize = p.normalize := by
  have h1 : p.normalize.length ≠ 0 := by
    rw [Vec2.normalize_length_one p h]
    norm_num
  rw [Vec2.normalize_of_ne _ h1, Vec2.normalize_length_one p h, div_one, div_one]

lemma Vec2.length_scale (a b c : ℝ) :
    (Vec2.mk (a * c) (b * c)).length = |c| * (Vec2.mk a b).length := by
  simp only [Vec2.length]
  rw [show (a * c) ^ 2 + (b * c) ^ 2 = c ^ 2 * (a ^ 2 + b ^ 2) by ring,
      Real.sqrt_mul (sq_nonneg c), Real.sqrt_sq_eq_abs]

/-- Inner-wall correction: with the horizontal distance d to the center
satisfying 0 < d < TRACK_RADIUS, the step decays the velocity and snaps the
horizontal position to radius TRACK_RADIUS + 0.1 along the same radial
direction. -/
lemma circuitBoundary_inner (s : BodyState)
    (hd0 : (Vec2.mk s.position.x s.position.z).length ≠ 0)
    (hdin : (Vec2.mk s.position.x s.position.z).length < TRACK_RADIUS) :
    circuitBoundary s = { s with
      velocity := Vec3.smul 0.01 s.velocity,
      position := ⟨s.position.x / (Vec2.mk s.position.x s.position.z).length
                      * (TRACK_RADIUS + 0.1),
                   s.position.y,
                   s.position.z / (Vec2.mk s.position.x s.position.z).length
                      * (TRACK_RADIUS + 0.1)⟩ } := by
  have hnotout : ¬ ((Vec2.mk s.position.x s.position.z).length
      > TRACK_RADIUS + TRACK_WIDTH) := by
    unfold TRACK_RADIUS TRACK_WIDTH at *
    push_neg
    linarith
  simp only [circuitBoundary]
  rw [if_neg hnotout, if_pos hdin, Vec2.normalize_idem_of_ne _ hd0,
      Vec2.normalize_of_ne _ hd0]

/-- Outer-wall correction: with the horizontal distance d to the center
exceeding TRACK_RADIUS + TRACK_WIDTH, the step decays the velocity and snaps
the horizontal position to radius TRACK_RADIUS + TRACK_WIDTH - 0.1 along the
same radial direction. -/
lemma circuitBoundary_outer (s : BodyState)
    (hdout : (Vec2.mk s.position.x s.position.z).length
        > TRACK_RADIUS + TRACK_WIDTH) :
    circuitBoundary s = { s with
      velocity := Vec3.smul 0.01 s.velocity,
      position := ⟨s.position.x / (Vec2.mk s.position.x s.position.z).length
                      * (TRACK_RADIUS + TRACK_WIDTH - 0.1),
                   s.position.y,
                   s.position.z / (Vec2.mk s.position.x s.position.z).length
                      * (TRACK_RADIUS + TRACK_WIDTH - 0.1)⟩ } := by
  have hd0 : (Vec2.mk s.position.x s.position.z).length ≠ 0 := by
    intro h0
    rw [h0] at hdout
    unfold TRACK_RADIUS TRACK_WIDTH at hdout
    norm_num at hdout
  have hnotin : ¬ ((Vec2.mk s.position.x s.position.z).length < TRACK_RADIUS) := by
    unfold TRACK_RADIUS TRACK_WIDTH at *
    push_neg
    linarith
  simp only [circuitBoundary]
  rw [if_neg hnotin, if_neg hnotin, if_pos hdout, Vec2.normalize_idem_of_ne _ hd0,
      Vec2.normalize_of_ne _ hd0]

/-- C3: In the circuit variant, whenever the post-translation horizontal
distance d to the track center satisfies 0 < d < TRACK_RADIUS, the step
multiplies the velocity by 0.01 and snaps the horizontal position to radius
exactly TRACK_RADIUS + 0.1 along the same radial direction; symmetrically,
when d > TRACK_RADIUS + TRACK_WIDTH, the velocity is decayed and the
position is snapped radially to radius TRACK_RADIUS + TRACK_WIDTH - 0.1. -/
theorem circuit_radial_snap (k : Keys) (dt : ℝ) (s : BodyState) :
    (0 < (Vec2.mk (integStep circuitConsts k dt s).position.x
            (integStep circuitConsts k dt s).position.z).length →
      (Vec2.mk (integStep circuitConsts k dt s).position.x
            (integStep circuitConsts k dt s).position.z).length < TRACK_RADIUS →
      (updatePhysicsCircuit k dt s).1.velocity
          = Vec3.smul 0.01 (integStep circuitConsts k dt s).velocity ∧
      (Vec2.mk (updatePhysicsCircuit k dt s).1.position.x
            (updatePhysicsCircuit k dt s).1.position.z).length = TRACK_RADIUS + 0.1 ∧
      ∃ t : ℝ, 0 < t ∧
        (updatePhysicsCircuit k dt s).1.position.x
            = t * (integStep circuitConsts k dt s).position.x ∧
        (updatePhysicsCircuit k dt s).1.position.z
            = t * (integStep circuitConsts k dt s).position.z) ∧
    ((Vec2.mk (integStep circuitConsts k dt s).position.x
            (integStep circuitConsts k dt s).position.z).length
          > TRACK_RADIUS + TRACK_WIDTH →
      (updatePhysicsCircuit k dt s).1.velocity
          = Vec3.smul 0.01 (integStep circuitConsts k dt s).velocity ∧
      (Vec2.mk (updatePhysicsCircuit k dt s).1.position.x
            (updatePhysicsCircuit k dt s).1.position.z).length
          = TRACK_RADIUS + TRACK_WIDTH - 0.1 ∧
      ∃ t : ℝ, 0 < t ∧
        (updatePhysicsCircuit k dt s).1.position.x
            = t * (integStep circuitConsts k dt s).position.x ∧
        (updatePhysicsCircuit k dt s).1.position.z
            = t * (integStep circuitConsts k dt s).position.z) := by
  have h1 : (updatePhysicsCircuit k dt s).1
      = circuitBoundary (integStep circuitConsts k dt s) := rfl
  set X := integStep circuitConsts k dt s with hX
  set d := (Vec2.mk X.position.x X.position.z).length with hd
  constructor
  · intro hd0 hdin
    have hne : d ≠ 0 := ne_of_gt hd0
    rw [h1, circuitBoundary_inner X hne hdin]
    refine ⟨rfl, ?_, (TRACK_RADIUS + 0.1) / d, ?_, ?_, ?_⟩
    · show (Vec2.mk (X.position.x / d * (TRACK_RADIUS + 0.1))
          (X.position.z / d * (TRACK_RADIUS + 0.1))).length = TRACK_RADIUS + 0.1
      rw [Vec2.length_scale,
          show Vec2.mk (X.position.x / d) (X.position.z / d)
              = (Vec2.mk X.position.x X.position.z).normalize
            from (Vec2.normalize_of_ne _ hne).symm,
          Vec2.normalize_length_one _ hne, mul_one, abs_of_pos]
      unfold TRACK_RADIUS
      norm_num
    · refine div_pos ?_ hd0
      unfold TRACK_RADIUS
      norm_num
    · show X.position.x / d * (TRACK_RADIUS + 0.1) = (TRACK_RADIUS + 0.1) / d * X.position.x
      ring
    · show X.position.z / d * (TRACK_RADIUS + 0.1) = (TRACK_RADIUS + 0.1) / d * X.position.z
      ring
  · intro hdout
    have hd0 : 0 < d := by
      have h70 : (0:ℝ) < TRACK_RADIUS + TRACK_WIDTH := by
        unfold TRACK_RADIUS TRACK_WIDTH
        norm_num
      linarith
    have hne : d ≠ 0 := ne_of_gt hd0
    rw [h1, circuitBoundary_outer X hdout]
    refine ⟨rfl, ?_, (TRACK_RADIUS + TRACK_WIDTH - 0.1) / d, ?_, ?_, ?_⟩
    · show (Vec2.mk (X.position.x / d * (TRACK_RADIUS + TRACK_WIDTH - 0.1))
          (X.position.z / d * (TRACK_RADIUS + TRACK_WIDTH - 0.1))).length
        = TRACK_RADIUS + TRACK_WIDTH - 0.1
      rw [Vec2.length_scale,
          show Vec2.mk (X.position.x / d) (X.position.z / d)
              = (Vec2.mk X.position.x X.position.z).normalize
            from (Vec2.normalize_of_ne _ hne).symm,
          Vec2.normalize_length_one _ hne, mul_one, abs_of_pos]
      unfold TRACK_RADIUS TRACK_WIDTH
      norm_num
    · refine div_pos ?_ hd0
      unfold TRACK_RADIUS TRACK_WIDTH
      norm_num
    · show X.position.x / d * (TRACK_RADIUS + TRACK_WIDTH - 0.1)
          = (TRACK_RADIUS + TRACK_WIDTH - 0.1) / d * X.position.x
      ring
    · show X.position.z / d * (TRACK_RADIUS + TRACK_WIDTH - 0.1)
          = (TRACK_RADIUS + TRACK_WIDTH - 0.1) / d * X.position.z
      ring

/-- C3 witness: the inner snap at the resting body placed at x = 55
(distance 55 < 60 from the center) and the outer snap at x = 80
(distance 80 > 70), both with no keys and dt = 0. -/
theorem circuit_radial_snap_witness :
    ((updatePhysicsCircuit ⟨false, false, false, false⟩ 0
        ⟨⟨55, 0.5, 0⟩, 0, ⟨0, 0, 0⟩, 0⟩).1.velocity
      = Vec3.smul 0.01 (integStep circuitConsts ⟨false, false, false, false⟩ 0
        ⟨⟨55, 0.5, 0⟩, 0, ⟨0, 0, 0⟩, 0⟩).velocity ∧
    (Vec2.mk (updatePhysicsCircuit ⟨false, false, false, false⟩ 0
        ⟨⟨55, 0.5, 0⟩, 0, ⟨0, 0, 0⟩, 0⟩).1.position.x
      (updatePhysicsCircuit ⟨false, false, false, false⟩ 0
        ⟨⟨55, 0.5, 0⟩, 0, ⟨0, 0, 0⟩, 0⟩).1.position.z).length = TRACK_RADIUS + 0.1 ∧
    ∃ t : ℝ, 0 < t ∧
      (updatePhysicsCircuit ⟨false, false, false, false⟩ 0
          ⟨⟨55, 0.5, 0⟩, 0, ⟨0, 0, 0⟩, 0⟩).1.position.x
        = t * (integStep circuitConsts ⟨false, false, false, false⟩ 0
          ⟨⟨55, 0.5, 0⟩, 0, ⟨0, 0, 0⟩, 0⟩).position.x ∧
      (updatePhysicsCircuit ⟨false, false, false, false⟩ 0
          ⟨⟨55, 0.5, 0⟩, 0, ⟨0, 0, 0⟩, 0⟩).1.position.z
        = t * (integStep circuitConsts ⟨false, false, false, false⟩ 0
          ⟨⟨55, 0.5, 0⟩, 0, ⟨0, 0, 0⟩, 0⟩).position.z) ∧
    ((updatePhysicsCircuit ⟨false, false, false, false⟩ 0
        ⟨⟨80, 0.5, 0⟩, 0, ⟨0, 0, 0⟩, 0⟩).1.velocity
      = Vec3.smul 0.01 (integStep circuitConsts ⟨false, false, false, false⟩ 0
        ⟨⟨80, 0.5, 0⟩, 0, ⟨0, 0, 0⟩, 0⟩).velocity ∧
    (Vec2.mk (updatePhysicsCircuit ⟨false, false, false, false⟩ 0
        ⟨⟨80, 0.5, 0⟩, 0, ⟨0, 0, 0⟩, 0⟩).1.position.x
      (updatePhysicsCircuit ⟨false, false, false, false⟩ 0
        ⟨⟨80, 0.5, 0⟩, 0, ⟨0, 0, 0⟩, 0⟩).1.position.z).length
      = TRACK_RADIUS + TRACK_WIDTH - 0.1 ∧
    ∃ t : ℝ, 0 < t ∧
      (updatePhysicsCircuit ⟨false, false, false, false⟩ 0
          ⟨⟨80, 0.5, 0⟩, 0, ⟨0, 0, 0⟩, 0⟩).1.position.x
        = t * (integStep circuitConsts ⟨false, false, false, false⟩ 0
          ⟨⟨80, 0.5, 0⟩, 0, ⟨0, 0, 0⟩, 0⟩).position.x ∧
      (updatePhysicsCircuit ⟨false, false, false, false⟩ 0
          ⟨⟨80, 0.5, 0⟩, 0, ⟨0, 0, 0⟩, 0⟩).1.position.z
        = t * (integStep circuitConsts ⟨false, false, false, false⟩ 0
          ⟨⟨80, 0.5, 0⟩, 0, ⟨0, 0, 0⟩, 0⟩).position.z) := by
  constructor
  · refine (circuit_radial_snap ⟨false, false, false, false⟩ 0
        ⟨⟨55, 0.5, 0⟩, 0, ⟨0, 0, 0⟩, 0⟩).1 ?_ ?_
    · rw [integStep_rest circuitConsts (by norm_num [circuitConsts]) 0 ⟨55, 0.5, 0⟩ 0]
      show (0:ℝ) < (Vec2.mk 55 0).length
      simp only [Vec2.length]
      rw [Real.sqrt_pos]
      norm_num
    · rw [integStep_rest circuitConsts (by norm_num [circuitConsts]) 0 ⟨55, 0.5, 0⟩ 0]
      show (Vec2.mk (55:ℝ) 0).length < 60
      simp only [Vec2.length]
      rw [Real.sqrt_lt' (by norm_num : (0:ℝ) < 60)]
      norm_num
  · refine (circuit_radial_snap ⟨false, false, false, false⟩ 0
        ⟨⟨80, 0.5, 0⟩, 0, ⟨0, 0, 0⟩, 0⟩).2 ?_
    rw [integStep_rest circuitConsts (by norm_num [circuitConsts]) 0 ⟨80, 0.5, 0⟩ 0]
    show TRACK_RADIUS + TRACK_WIDTH < (Vec2.mk (80:ℝ) 0).length
    unfold TRACK_RADIUS TRACK_WIDTH
    simp only [Vec2.length]
    rw [Real.lt_sqrt (by norm_num : (0:ℝ) ≤ 60 + 10)]
    norm_num

lemma forwardVector_length (θ : ℝ) : (forwardVector θ).length = 1 := by
  have h : (forwardVector θ).x ^ 2 + (forwardVector θ).y ^ 2 + (forwardVector θ).z ^ 2 = 1 := by
    simp only [forwardVector, applyAxisAngleY]
    have htrig := Real.sin_sq_add_cos_sq θ
    nlinarith [htrig]
  rw [Vec3.length, h, Real.sqrt_one]

/-- C4 (amended): starting a step with angular velocity 0 and velocity of
magnitude v along the heading, holding throttle-forward only, with dt > 0
and no boundary interaction: the speed strictly increases when v is below
both the drag equilibrium (where accel/mass*dt = v*(1/drag - 1)) and
MAX_SPEED; at or above the equilibrium the speed does not increase.
(Without the below-MAX_SPEED proviso the original claim fails: at large dt
the clamp saturates the speed at MAX_SPEED while still far below the drag
equilibrium.) -/
theorem forward_speed_monotonicity (θ v dt : ℝ) (s : BodyState)
    (hv : s.velocity = Vec3.smul v (forwardVector θ))
    (hθ : s.rotationY = θ) (hω : s.angularVelocity = 0)
    (hv0 : 0 ≤ v) (hdt : 0 < dt) :
    (v * (1 / openConsts.drag - 1) < openConsts.accel / openConsts.mass * dt →
      v < openConsts.maxSpeed →
      v < (integStep openConsts ⟨true, false, false, false⟩ dt s).velocity.length) ∧
    (openConsts.accel / openConsts.mass * dt ≤ v * (1 / openConsts.drag - 1) →
      (integStep openConsts ⟨true, false, false, false⟩ dt s).velocity.length ≤ v) := by
  have hrot : newRotationY openConsts ⟨true, false, false, false⟩ dt s = θ := by
    simp [newRotationY, newAngularVelocity, steerAV, hω, hθ]
  have hdf : driveForce openConsts ⟨true, false, false, false⟩ (forwardVector θ)
      = Vec3.smul 20 (forwardVector θ) := by
    simp [driveForce, Vec3.add, Vec3.smul, openConsts]
  have hdv : dragVelocity openConsts ⟨true, false, false, false⟩ dt θ
        (Vec3.smul v (forwardVector θ))
      = Vec3.smul (0.985 * (v + 2 * dt)) (forwardVector θ) := by
    simp only [dragVelocity, hdf]
    simp only [Vec3.add, Vec3.smul, Vec3.mk.injEq, openConsts]
    refine ⟨by ring, by ring, by ring⟩
  have hnv : (integStep openConsts ⟨true, false, false, false⟩ dt s).velocity
      = clampVelocity openConsts (Vec3.smul (0.985 * (v + 2 * dt)) (forwardVector θ)) := by
    show newVelocity openConsts ⟨true, false, false, false⟩ dt s = _
    rw [newVelocity, hrot, hv, hdv]
  have hu0 : 0 ≤ 0.985 * (v + 2 * dt) := by nlinarith
  have hlen : (Vec3.smul (0.985 * (v + 2 * dt)) (forwardVector θ)).length
      = 0.985 * (v + 2 * dt) := by
    rw [Vec3.length_smul, forwardVector_length, mul_one, abs_of_nonneg hu0]
  constructor
  · intro hlow hmax
    have hlow' : v * (1 / (0.985:ℝ) - 1) < 2 * dt := by
      have := hlow
      norm_num [openConsts] at this
      linarith
    have huv : v < 0.985 * (v + 2 * dt) := by nlinarith [hlow']
    rw [hnv, clampVelocity]
    split
    · rename_i hgt
      have hne : (Vec3.smul (0.985 * (v + 2 * dt)) (forwardVector θ)).length ≠ 0 := by
        rw [hlen]
        norm_num [openConsts] at hgt
        nlinarith
      rw [Vec3.length_setLength _ _ hne (by norm_num [openConsts])]
      exact hmax
    · rw [hlen]
      exact huv
  · intro hhigh
    have hhigh' : 2 * dt ≤ v * (1 / (0.985:ℝ) - 1) := by
      have := hhigh
      norm_num [openConsts] at this
      linarith
    have huv : 0.985 * (v + 2 * dt) ≤ v := by nlinarith [hhigh']
    rw [hnv, clampVelocity]
    split
    · rename_i hgt
      rw [hlen] at hgt
      have hne : (Vec3.smul (0.985 * (v + 2 * dt)) (forwardVector θ)).length ≠ 0 := by
        rw [hlen]
        norm_num [openConsts] at hgt
        nlinarith
      rw [Vec3.length_setLength _ _ hne (by norm_num [openConsts])]
      have : openConsts.maxSpeed < 0.985 * (v + 2 * dt) := hgt
      linarith
    · rw [hlen]
      exact huv

/-- C4 amended-claim witness: one step from rest (v = 0) with dt = 1,
below both the equilibrium and MAX_SPEED. -/
theorem forward_speed_monotonicity_witness :
    ((0:ℝ) * (1 / openConsts.drag - 1) < openConsts.accel / openConsts.mass * 1 →
      (0:ℝ) < openConsts.maxSpeed →
      (0:ℝ) < (integStep openConsts ⟨true, false, false, false⟩ 1
        ⟨⟨0, 0, 0⟩, 0, ⟨0, 0, 0⟩, 0⟩).velocity.length) ∧
    (openConsts.accel / openConsts.mass * 1 ≤ (0:ℝ) * (1 / openConsts.drag - 1) →
      (integStep openConsts ⟨true, false, false, false⟩ 1
        ⟨⟨0, 0, 0⟩, 0, ⟨0, 0, 0⟩, 0⟩).velocity.length ≤ 0) :=
  forward_speed_monotonicity 0 0 1 ⟨⟨0, 0, 0⟩, 0, ⟨0, 0, 0⟩, 0⟩
    (by simp [Vec3.smul]) rfl rfl (le_refl 0) (by norm_num)

lemma axis_length (z : ℝ) (hz : 0 ≤ z) : (Vec3.mk 0 0 (-z)).length = z := by
  simp only [Vec3.length]
  rw [show (0:ℝ) ^ 2 + 0 ^ 2 + (-z) ^ 2 = z ^ 2 by ring, Real.sqrt_sq hz]

lemma clamp_axis_open (z : ℝ) (hz : 15 < z) :
    clampVelocity openConsts ⟨0, 0, -z⟩ = ⟨0, 0, -15⟩ := by
  have hz0 : (0:ℝ) ≤ z := by linarith
  have hl : (Vec3.mk (0:ℝ) 0 (-z)).length = z := axis_length z hz0
  have hcond : (Vec3.mk (0:ℝ) 0 (-z)).length > openConsts.maxSpeed := by
    rw [hl]
    norm_num [openConsts]
    linarith
  rw [clampVelocity, if_pos hcond, Vec3.setLength,
      Vec3.normalize_of_length_ne_zero _ (by rw [hl]; linarith), hl, Vec3.smul_smul]
  have hzne : z ≠ 0 := by linarith
  simp only [Vec3.smul, Vec3.mk.injEq, openConsts]
  refine ⟨by ring, by ring, ?_⟩
  field_simp

lemma dragVelocity_axis (dt w : ℝ) :
    dragVelocity openConsts ⟨true, false, false, false⟩ dt 0 ⟨0, 0, -w⟩
      = ⟨0, 0, -(0.985 * (w + 2 * dt))⟩ := by
  have hf : forwardVector 0 = ⟨0, 0, -1⟩ := by
    simp [forwardVector, applyAxisAngleY]
  have hdf : driveForce openConsts ⟨true, false, false, false⟩ (⟨0, 0, -1⟩ : Vec3)
      = ⟨0, 0, -20⟩ := by
    simp [driveForce, Vec3.add, Vec3.smul, openConsts]
  simp only [dragVelocity, hf, hdf]
  simp only [Vec3.add, Vec3.smul, Vec3.mk.injEq, openConsts]
  refine ⟨by ring, by ring, by ring⟩

lemma integStep_axis (dt w : ℝ) (p : Vec3) :
    integStep openConsts ⟨true, false, false, false⟩ dt ⟨p, 0, ⟨0, 0, -w⟩, 0⟩
      = ⟨p.add (Vec3.smul dt (clampVelocity openConsts ⟨0, 0, -(0.985 * (w + 2 * dt))⟩)), 0,
         clampVelocity openConsts ⟨0, 0, -(0.985 * (w + 2 * dt))⟩, 0⟩ := by
  have hav : newAngularVelocity openConsts ⟨true, false, false, false⟩ dt
      ⟨p, 0, ⟨0, 0, -w⟩, 0⟩ = 0 := by
    simp [newAngularVelocity, steerAV]
  have hrot : newRotationY openConsts ⟨true, false, false, false⟩ dt
      ⟨p, 0, ⟨0, 0, -w⟩, 0⟩ = 0 := by
    simp [newRotationY, hav]
  have hnv : newVelocity openConsts ⟨true, false, false, false⟩ dt ⟨p, 0, ⟨0, 0, -w⟩, 0⟩
      = clampVelocity openConsts ⟨0, 0, -(0.985 * (w + 2 * dt))⟩ := by
    rw [newVelocity, hrot]
    show clampVelocity openConsts
        (dragVelocity openConsts ⟨true, false, false, false⟩ dt 0 ⟨0, 0, -w⟩) = _
    rw [dragVelocity_axis]
  simp only [integStep, hnv, hrot, hav]

/-- C4 counterexample: from rest, holding forward only, with constant
dt = 10 and no boundary interaction, the second step's speed equals the
first step's speed (15, the MAX_SPEED cap) instead of strictly increasing,
although that speed is still strictly below the claimed drag equilibrium
(15 * (1/DRAG - 1) < ACCELERATION/MASS * dt). -/
theorem forward_speed_counterexample :
    (integStep openConsts ⟨true, false, false, false⟩ 10
        (integStep openConsts ⟨true, false, false, false⟩ 10
          ⟨⟨0, 0, 0⟩, 0, ⟨0, 0, 0⟩, 0⟩)).velocity.length
      = (integStep openConsts ⟨true, false, false, false⟩ 10
          ⟨⟨0, 0, 0⟩, 0, ⟨0, 0, 0⟩, 0⟩).velocity.length ∧
    (integStep openConsts ⟨true, false, false, false⟩ 10
        ⟨⟨0, 0, 0⟩, 0, ⟨0, 0, 0⟩, 0⟩).velocity.length * (1 / openConsts.drag - 1)
      < openConsts.accel / openConsts.mass * 10 := by
  rw [show (⟨⟨0, 0, 0⟩, 0, ⟨0, 0, 0⟩, 0⟩ : BodyState)
      = (⟨⟨0, 0, 0⟩, 0, ⟨0, 0, -(0:ℝ)⟩, 0⟩ : BodyState) by simp]
  rw [integStep_axis 10 0 ⟨0, 0, 0⟩]
  rw [clamp_axis_open (0.985 * (0 + 2 * 10)) (by norm_num)]
  rw [integStep_axis 10 15 _]
  rw [clamp_axis_open (0.985 * (15 + 2 * 10)) (by norm_num)]
  constructor
  · rfl
  · show (Vec3.mk (0:ℝ) 0 (-15)).length * (1 / openConsts.drag - 1)
        < openConsts.accel / openConsts.mass * 10
    rw [show (Vec3.mk (0:ℝ) 0 (-15)) = (Vec3.mk (0:ℝ) 0 (-(15:ℝ))) by norm_num,
        axis_length 15 (by norm_num)]
    norm_num [openConsts]

end HTRace
